import Mathlib

/-!
Shallow embedding of the pulse-synchronous scheduler of `europython.py`
(class `Clock`): the 384-slot delay ring `countdowns`, the boundary waiter
sets `bars` and `beats`, the lane registry `sequencers`, and the per-lane
wake events `events`.

Modelling conventions:

* Lane `seq` (1-based) owns index `seq - 1`; `self.sequencers[index]`, when
  not `None`, is always the very object `self.events[index]`, so the
  registry is modelled as the Boolean `sequencers index` ("is not None")
  and a wake signal `ev.set()` as `events index := true`.
* `threading.Event` flags are the Booleans `events index`
  (`set`/`clear`/`is_set`).
* Counters `position`, `beat`, `bar` are integers (they start at `-1`);
  Python's `%` on these non-negative moduli agrees with `Int.emod`.
* The Launchpad `Board` (`self.board.…` calls) is the external status sink
  of the design and is outside the model, as are the MIDI ports.
* `Clock.tick` pops the front slot of `countdowns` with `popleft()`; the
  live ring always holds exactly 384 slots (rebuilt by every `reset`,
  `popleft` plus `append` per tick, `set` in `wait`), so the model keeps
  `tick` total on the unreachable short-ring shapes without modelling the
  `IndexError` a 0- or 1-element deque would raise there.
* `Clock.wait` indexes the ring with `self.countdowns[pulses - 1]` before
  mutating anything; an out-of-range index raises `IndexError` at that
  point, modelled as `Except.error` carrying the (unchanged) state.
* `Clock.wait_for` is the code run once `ev.wait()` has returned, i.e. once
  the lane's event has been signalled: it clears the event and raises
  `Stopped` (outcome `cancelled`) when the clock is not running or the lane
  is no longer registered, and returns normally otherwise.
-/

/-- Outcome of a completed wait: a normal return from `Clock.wait_for`, or
`cancelled` for the `Stopped` exception it raises. -/
inductive Outcome where
  | normal
  | cancelled
deriving DecidableEq, Repr

/-- State of the `Clock` engine: transport flag, position counters, the
delay ring, the bar/beat waiter sets, the lane registry and the per-lane
event flags. -/
structure ClockState where
  running : Bool
  position : Int
  beat : Int
  bar : Int
  countdowns : List (Finset Nat)
  bars : Finset Nat
  beats : Finset Nat
  sequencers : Nat → Bool
  events : Nat → Bool

/-- A run of `n` empty delay-ring slots: `deque(set() for _ in range(n))`. -/
def emptyRing : Nat → List (Finset Nat)
  | 0 => []
  | n + 1 => ∅ :: emptyRing n

lemma emptyRing_length (n : Nat) : (emptyRing n).length = n := by
  induction n with
  | zero => rfl
  | succ n ih => simp [emptyRing, ih]

lemma eq_empty_of_mem_emptyRing {c : Finset Nat} {n : Nat}
    (h : c ∈ emptyRing n) : c = ∅ := by
  induction n with
  | zero => simp [emptyRing] at h
  | succ n ih =>
    rcases List.mem_cons.mp h with h1 | h1
    · exact h1
    · exact ih h1

namespace Clock

/-- Clock.reset: stop the transport, rewind the counters, signal every
event except (on a soft reset) those of lanes in `bars`, clear `beats`
(and, on a full reset, `bars`), and rebuild the 384-slot ring empty.  The
event loop iterates over the 64-element `self.events` list. -/
def reset (s : ClockState) (full : Bool) : ClockState :=
  { running := false
    position := -1
    beat := -1
    bar := -1
    bars := if full then ∅ else s.bars
    beats := ∅
    countdowns := emptyRing 384
    sequencers := s.sequencers
    events := fun i =>
      if i < 64 then
        if full then true
        else if i ∈ s.bars then s.events i else true
      else s.events i }

/-- Clock.run on a `start` or `continue` transport message: soft reset,
then `running = True`. -/
def onTransportStart (s : ClockState) : ClockState :=
  { reset s false with running := true }

/-- Clock.run on a `stop` transport message: full reset. -/
def onTransportStop (s : ClockState) : ClockState :=
  reset s true

/-- One wake loop of Clock.tick, its effect on the waiter set: ids whose
sequencer entry is not `None` are woken and removed, the rest stay. -/
def survivors (sequencers : Nat → Bool) (w : Finset Nat) : Finset Nat :=
  w.filter fun i => ¬ sequencers i

/-- Clock.tick (`onPulse`): advance the counters with wraparound; on a beat
boundary wake the registered `beats` waiters (and on a bar boundary also
the registered `bars` waiters); pop the front ring slot, waking its
registered ids and moving its unregistered ids into the new front slot;
append a fresh empty slot. -/
def tick (s : ClockState) : ClockState :=
  let position : Int := (s.position + 1) % 24
  let beat : Int := if position = 0 then (s.beat + 1) % 4 else s.beat
  let bar : Int := if position = 0 ∧ beat = 0 then (s.bar + 1) % 4 else s.bar
  let doBeat : Bool := decide (position = 0)
  let doBar : Bool := doBeat && decide (beat = 0)
  let bars1 := if doBar then survivors s.sequencers s.bars else s.bars
  let events1 := fun i =>
    s.events i || (doBar && decide (i ∈ s.bars) && s.sequencers i)
  let beats1 := if doBeat then survivors s.sequencers s.beats else s.beats
  let events2 := fun i =>
    events1 i || (doBeat && decide (i ∈ s.beats) && s.sequencers i)
  match s.countdowns with
  | [] =>
      { s with position := position, beat := beat, bar := bar,
               bars := bars1, beats := beats1, events := events2 }
  | current :: rest =>
      let events3 := fun i =>
        events2 i || (decide (i ∈ current) && s.sequencers i)
      let countdowns1 :=
        match rest with
        | [] => [survivors s.sequencers current] ++ [∅]
        | r0 :: rs => ((r0 ∪ survivors s.sequencers current) :: rs) ++ [∅]
      { s with position := position, beat := beat, bar := bar,
               bars := bars1, beats := beats1,
               events := events3, countdowns := countdowns1 }

/-- Clock.wait (`waitPulses`): a zero-pulse wait returns at once (the Bool
records whether the call goes on to block on the lane's event);
otherwise the lane's index is added to ring slot `pulses - 1`.  Indexing
the ring past its end raises `IndexError` before any mutation. -/
def wait (s : ClockState) (seq : Nat) (pulses : Nat) :
    Except ClockState (ClockState × Bool) :=
  if pulses = 0 then
    .ok (s, false)
  else
    let index := seq - 1
    if h : pulses - 1 < s.countdowns.length then
      let slot := insert index (s.countdowns.get ⟨pulses - 1, h⟩)
      .ok ({ s with countdowns := s.countdowns.set (pulses - 1) slot }, true)
    else
      .error s

/-- Clock.wait_for, from the point `ev.wait()` returns: clear the event,
then raise `Stopped` if the clock is not running, or if the lane's
sequencer entry is `None`; otherwise return normally. -/
def wait_for (s : ClockState) (index : Nat) : ClockState × Outcome :=
  let s1 := { s with events := fun i => if i = index then false else s.events i }
  if s.running = false then (s1, .cancelled)
  else if s.sequencers index = false then (s1, .cancelled)
  else (s1, .normal)

/-- Clock.wait_for_beat, the arming step: add the lane's index to `beats`
(it then blocks through `wait_for`). -/
def wait_for_beat (s : ClockState) (seq : Nat) : ClockState :=
  { s with beats := insert (seq - 1) s.beats }

/-- Clock.wait_for_bar, the arming step: add the lane's index to `bars`
(it then blocks through `wait_for`). -/
def wait_for_bar (s : ClockState) (seq : Nat) : ClockState :=
  { s with bars := insert (seq - 1) s.bars }

/-- Clock.register: clear the lane's event and store it in the registry. -/
def register (s : ClockState) (seq : Nat) : ClockState :=
  let index := seq - 1
  { s with events := fun i => if i = index then false else s.events i
           sequencers := fun i => if i = index then true else s.sequencers i }

/-- Clock.unregister: signal the lane's event, drop it from the registry
and purge its index from `bars`, `beats` and every ring slot. -/
def unregister (s : ClockState) (seq : Nat) : ClockState :=
  let index := seq - 1
  { s with events := fun i => if i = index then true else s.events i
           sequencers := fun i => if i = index then false else s.sequencers i
           bars := s.bars.erase index
           beats := s.beats.erase index
           countdowns := s.countdowns.map fun c => c.erase index }

/-- Clock.is_registered. -/
def is_registered (s : ClockState) (seq : Nat) : Bool :=
  s.sequencers (seq - 1)

end Clock

/-- Clock.__init__ followed by the `reset()` it performs: nothing
registered, no waiters, all 64 events signalled by that first soft reset,
384 empty ring slots, counters at `-1`, transport stopped. -/
def initClock : ClockState :=
  Clock.reset
    { running := false, position := 0, beat := 0, bar := 0,
      countdowns := [], bars := ∅, beats := ∅,
      sequencers := fun _ => false, events := fun _ => false } false

/-- C9: `waitPulses(id, 0)` is a no-op: it returns at once (never reaching
the blocking `wait_for`, hence with a Normal outcome and without consuming
a pulse) and the state — DelayRing, BeatWaiters, BarWaiters, the lane's
event — is returned unchanged, whatever the transport or registry state. -/
theorem wait_zero_is_noop (s : ClockState) (seq : Nat) :
    Clock.wait s seq 0 = Except.ok (s, false) := rfl

/-- C6: a woken wait (any of `wait`, `wait_for_beat`, `wait_for_bar`, all
completing through `Clock.wait_for`) ends in a Cancelled outcome exactly
when, at wake time, the transport is not running or the lane is no longer
registered; otherwise it is Normal. -/
theorem wake_cancelled_iff (s : ClockState) (index : Nat) :
    (Clock.wait_for s index).2 = Outcome.cancelled ↔
      (s.running = false ∨ s.sequencers index = false) := by
  unfold Clock.wait_for
  split_ifs with h1 h2 <;> simp_all

/-- C5: a wait of more than 384 pulses (the configured horizon: the ring
holds 384 slots) is rejected at the call boundary — indexing the ring
raises `IndexError` before any mutation — so no wrapping occurs and the
engine state is returned unchanged inside the error. -/
theorem wait_over_horizon_rejected (s : ClockState) (seq n : Nat)
    (hlen : s.countdowns.length = 384) (hn : 384 < n) :
    Clock.wait s seq n = Except.error s := by
  have h0 : n ≠ 0 := by omega
  have h1 : ¬ (n - 1 < s.countdowns.length) := by rw [hlen]; omega
  simp [Clock.wait, h0, h1]

/-- Witness for C5: at the freshly initialised engine, a 385-pulse wait
request raises and the state comes back unchanged. -/
theorem wait_over_horizon_rejected_witness :
    initClock.countdowns.length = 384 ∧ 384 < 385 ∧
      Clock.wait initClock 5 385 = Except.error initClock :=
  ⟨by simp [initClock, Clock.reset, emptyRing_length], by decide,
    wait_over_horizon_rejected initClock 5 385
      (by simp [initClock, Clock.reset, emptyRing_length]) (by decide)⟩

lemma tick_position (s : ClockState) :
    (Clock.tick s).position = (s.position + 1) % 24 := by
  cases hc : s.countdowns with
  | nil => simp [Clock.tick, hc]
  | cons c rest => cases rest <;> simp [Clock.tick, hc]

lemma tick_running (s : ClockState) : (Clock.tick s).running = s.running := by
  cases hc : s.countdowns with
  | nil => simp [Clock.tick, hc]
  | cons c rest => cases rest <;> simp [Clock.tick, hc]

lemma tick_sequencers (s : ClockState) :
    (Clock.tick s).sequencers = s.sequencers := by
  cases hc : s.countdowns with
  | nil => simp [Clock.tick, hc]
  | cons c rest => cases rest <;> simp [Clock.tick, hc]

lemma getD_append_empty (l : List (Finset Nat)) (j : Nat) :
    (l ++ [(∅ : Finset Nat)]).getD j ∅ = l.getD j ∅ := by
  induction l generalizing j with
  | nil => cases j <;> simp
  | cons a l ih =>
    cases j with
    | zero => simp
    | succ j => simpa using ih j

lemma tick_countdowns_cons2 (s : ClockState) (c r0 : Finset Nat)
    (rs : List (Finset Nat)) (hc : s.countdowns = c :: r0 :: rs) :
    (Clock.tick s).countdowns =
      ((r0 ∪ Clock.survivors s.sequencers c) :: rs) ++ [∅] := by
  simp [Clock.tick, hc]

lemma tick_events_eq_of_unregistered (s : ClockState) (i : Nat)
    (hreg : s.sequencers i = false) :
    (Clock.tick s).events i = s.events i := by
  cases hc : s.countdowns with
  | nil => simp [Clock.tick, hc, hreg]
  | cons c rest => cases rest <;> simp [Clock.tick, hc, hreg]

lemma tick_events_eq_of_not_mem (s : ClockState) (i : Nat)
    (hbar : i ∉ s.bars) (hbeat : i ∉ s.beats)
    (hfront : i ∉ s.countdowns.getD 0 ∅) :
    (Clock.tick s).events i = s.events i := by
  cases hc : s.countdowns with
  | nil => simp [Clock.tick, hc, hbar, hbeat]
  | cons c rest =>
    rw [hc, List.getD_cons_zero] at hfront
    cases rest <;> simp [Clock.tick, hc, hbar, hbeat, hfront]

lemma tick_events_true_of_front (s : ClockState) (i : Nat)
    (hfront : i ∈ s.countdowns.getD 0 ∅) (hreg : s.sequencers i = true) :
    (Clock.tick s).events i = true := by
  cases hc : s.countdowns with
  | nil => rw [hc] at hfront; simp at hfront
  | cons c rest =>
    rw [hc, List.getD_cons_zero] at hfront
    cases rest <;> simp [Clock.tick, hc, hfront, hreg]

lemma tick_events_true_of_beat (s : ClockState) (i : Nat)
    (hpos : (s.position + 1) % 24 = 0) (hmem : i ∈ s.beats)
    (hreg : s.sequencers i = true) :
    (Clock.tick s).events i = true := by
  cases hc : s.countdowns with
  | nil => simp [Clock.tick, hc, hpos, hmem, hreg]
  | cons c rest => cases rest <;> simp [Clock.tick, hc, hpos, hmem, hreg]

lemma tick_events_true_of_bar (s : ClockState) (i : Nat)
    (hpos : (s.position + 1) % 24 = 0) (hb : (s.beat + 1) % 4 = 0)
    (hmem : i ∈ s.bars) (hreg : s.sequencers i = true) :
    (Clock.tick s).events i = true := by
  cases hc : s.countdowns with
  | nil => simp [Clock.tick, hc, hpos, hb, hmem, hreg]
  | cons c rest => cases rest <;> simp [Clock.tick, hc, hpos, hb, hmem, hreg]

lemma tick_bars_not_mem (s : ClockState) (i : Nat) (h : i ∉ s.bars) :
    i ∉ (Clock.tick s).bars := by
  have hs : i ∉ Clock.survivors s.sequencers s.bars := by
    simp [Clock.survivors, h]
  cases hc : s.countdowns with
  | nil => simp only [Clock.tick, hc]; split_ifs <;> assumption
  | cons c rest =>
    cases rest <;> simp only [Clock.tick, hc] <;> split_ifs <;> assumption

lemma tick_beats_not_mem (s : ClockState) (i : Nat) (h : i ∉ s.beats) :
    i ∉ (Clock.tick s).beats := by
  have hs : i ∉ Clock.survivors s.sequencers s.beats := by
    simp [Clock.survivors, h]
  cases hc : s.countdowns with
  | nil => simp only [Clock.tick, hc]; split_ifs <;> assumption
  | cons c rest =>
    cases rest <;> simp only [Clock.tick, hc] <;> split_ifs <;> assumption

lemma tick_beats_eq (s : ClockState) (hpos : (s.position + 1) % 24 = 0) :
    (Clock.tick s).beats = Clock.survivors s.sequencers s.beats := by
  cases hc : s.countdowns with
  | nil => simp [Clock.tick, hc, hpos]
  | cons c rest => cases rest <;> simp [Clock.tick, hc, hpos]

lemma tick_bars_eq_of_bar (s : ClockState)
    (hpos : (s.position + 1) % 24 = 0) (hb : (s.beat + 1) % 4 = 0) :
    (Clock.tick s).bars = Clock.survivors s.sequencers s.bars := by
  cases hc : s.countdowns with
  | nil => simp [Clock.tick, hc, hpos, hb]
  | cons c rest => cases rest <;> simp [Clock.tick, hc, hpos, hb]

lemma tick_bars_eq_of_not_bar (s : ClockState)
    (hpos : (s.position + 1) % 24 = 0) (hb : ¬ (s.beat + 1) % 4 = 0) :
    (Clock.tick s).bars = s.bars := by
  cases hc : s.countdowns with
  | nil => simp [Clock.tick, hc, hpos, hb]
  | cons c rest => cases rest <;> simp [Clock.tick, hc, hpos, hb]

/-- C4: a stop event (full reset) signals every lane's wake event, leaves
the transport stopped — so any wait completing over it ends Cancelled —
rebuilds the DelayRing with all 384 slots empty, clears BeatWaiters and
BarWaiters, and sets the counters so that the next tick makes position 0. -/
theorem stop_wakes_all_and_resets (s : ClockState) :
    (∀ i, i < 64 → (Clock.onTransportStop s).events i = true) ∧
    (Clock.onTransportStop s).running = false ∧
    (∀ i, (Clock.wait_for (Clock.onTransportStop s) i).2 = Outcome.cancelled) ∧
    (Clock.onTransportStop s).countdowns = emptyRing 384 ∧
    (Clock.onTransportStop s).beats = ∅ ∧
    (Clock.onTransportStop s).bars = ∅ ∧
    (Clock.tick (Clock.onTransportStop s)).position = 0 := by
  refine ⟨?_, rfl, ?_, rfl, rfl, rfl, ?_⟩
  · intro i hi
    simp [Clock.onTransportStop, Clock.reset, hi]
  · intro i
    simp [Clock.wait_for, Clock.onTransportStop, Clock.reset]
  · rw [tick_position]
    simp [Clock.onTransportStop, Clock.reset]

/-- C10: a soft reset (full=False, as run on start and continue) keeps
BarWaiters unchanged and leaves the events of its members alone, while it
empties BeatWaiters, rebuilds the DelayRing empty, and signals the wake
event of every other lane. -/
theorem soft_reset_preserves_bar_waiters (s : ClockState) :
    (Clock.reset s false).bars = s.bars ∧
    (∀ i, i ∈ s.bars → (Clock.reset s false).events i = s.events i) ∧
    (Clock.reset s false).beats = ∅ ∧
    (Clock.reset s false).countdowns = emptyRing 384 ∧
    (∀ i, i < 64 → i ∉ s.bars → (Clock.reset s false).events i = true) := by
  refine ⟨rfl, ?_, rfl, rfl, ?_⟩
  · intro i hi
    by_cases h : i < 64 <;> simp [Clock.reset, h, hi]
  · intro i h64 hbar
    simp [Clock.reset, h64, hbar]

/-- Concrete engine state: transport running, lane 5 (index 4) registered
and waiting on a fixed count of 6 pulses (ring slot 5), its event clear,
no bar or beat waiters. -/
def cex3 : ClockState :=
  { running := true, position := 3, beat := 1, bar := 0,
    countdowns := emptyRing 5 ++ {4} :: emptyRing 378,
    bars := ∅, beats := ∅,
    sequencers := fun i => decide (i = 4), events := fun _ => false }

/-- Counterexample to C3: lane 5 (index 4) is registered and waiting on a
fixed pulse count in DelayRing slot 5, with its wake event clear; the soft
reset run on a start or continue event nevertheless signals its wake
event. -/
theorem soft_reset_wakes_delay_waiter_cex :
    4 ∈ cex3.countdowns.getD 5 ∅ ∧ cex3.sequencers 4 = true ∧
      4 ∉ cex3.bars ∧ cex3.events 4 = false ∧
      (Clock.onTransportStart cex3).events 4 = true := by decide

/-- C3 as amended: a soft reset signals the wake event of every lane whose
index is not in BarWaiters — in particular, lanes currently waiting on
fixed pulse counts in the DelayRing are force-woken by a soft reset too,
not only by a stop; only lanes in BarWaiters are left unsignalled. -/
theorem soft_reset_signals_all_but_bar_waiters (s : ClockState) (i : Nat)
    (h64 : i < 64) (hbar : i ∉ s.bars) :
    (Clock.onTransportStart s).events i = true := by
  simp [Clock.onTransportStart, Clock.reset, h64, hbar]

/-- Witness for the amended C3: the registered delay-ring waiter of `cex3`
is signalled by the soft reset. -/
theorem soft_reset_signals_all_but_bar_waiters_witness :
    4 < 64 ∧ 4 ∉ cex3.bars ∧ (Clock.onTransportStart cex3).events 4 = true :=
  ⟨by decide, by decide,
    soft_reset_signals_all_but_bar_waiters cex3 4 (by decide) (by decide)⟩

/-- Concrete engine state: transport running, lane 5 (index 4) present in
the front DelayRing slot but not registered (its sequencer entry is
`None`), its event clear, no other waiters. -/
def cex2 : ClockState :=
  { running := true, position := 3, beat := 1, bar := 0,
    countdowns := {4} :: emptyRing 383,
    bars := ∅, beats := ∅,
    sequencers := fun _ => false, events := fun _ => false }

/-- Counterexample to C2: index 4 sits in the front DelayRing slot and is
not registered when the tick pops that slot; the tick does NOT drop it —
it re-inserts it into the new front slot (the `else` branch of the
countdown loop adds it to `countdowns[0]`), so a later tick can still wake
it once the lane re-registers. -/
theorem tick_rearms_unregistered_cex :
    cex2.sequencers 4 = false ∧ 4 ∈ cex2.countdowns.getD 0 ∅ ∧
      4 ∈ (Clock.tick cex2).countdowns.getD 0 ∅ ∧
      (Clock.tick cex2).events 4 = false := by decide

/-- C2 as amended: an id found unregistered in the popped front slot is
re-inserted into the new front DelayRing slot — re-armed with a one-pulse
delay rather than dropped — and its wake event is not signalled by this
tick. -/
theorem tick_rearms_unregistered (s : ClockState) (i : Nat)
    (hlen : s.countdowns.length = 384)
    (hfront : i ∈ s.countdowns.getD 0 ∅)
    (hreg : s.sequencers i = false) :
    i ∈ (Clock.tick s).countdowns.getD 0 ∅ ∧
      (Clock.tick s).events i = s.events i := by
  obtain ⟨c, r0, rs, hc⟩ : ∃ c r0 rs, s.countdowns = c :: r0 :: rs := by
    cases h1 : s.countdowns with
    | nil => rw [h1] at hlen; simp at hlen
    | cons c t =>
      cases t with
      | nil => rw [h1] at hlen; simp at hlen
      | cons r0 rs => exact ⟨c, r0, rs, rfl⟩
  rw [hc, List.getD_cons_zero] at hfront
  constructor
  · rw [tick_countdowns_cons2 s c r0 rs hc, List.cons_append,
      List.getD_cons_zero]
    exact Finset.mem_union_right _
      (Finset.mem_filter.mpr ⟨hfront, by simp [hreg]⟩)
  · exact tick_events_eq_of_unregistered s i hreg

/-- Witness for the amended C2: at `cex2` the unregistered id 4 is
re-armed into the new front slot and left unsignalled. -/
theorem tick_rearms_unregistered_witness :
    cex2.countdowns.length = 384 ∧ 4 ∈ cex2.countdowns.getD 0 ∅ ∧
      cex2.sequencers 4 = false ∧
      (4 ∈ (Clock.tick cex2).countdowns.getD 0 ∅ ∧
        (Clock.tick cex2).events 4 = cex2.events 4) :=
  ⟨by simp [cex2, emptyRing_length], by decide, by decide,
    tick_rearms_unregistered cex2 4 (by simp [cex2, emptyRing_length])
      (by decide) (by decide)⟩

/-- Concrete engine state: transport running, position 23 (the next pulse
is a beat boundary), index 4 in BeatWaiters but not registered. -/
def cex8 : ClockState :=
  { running := true, position := 23, beat := 0, bar := 0,
    countdowns := emptyRing 384,
    bars := ∅, beats := {4},
    sequencers := fun _ => false, events := fun _ => false }

/-- Counterexample to C8: on the tick whose new pulse position is 0, the
unregistered id 4 in BeatWaiters is neither signalled nor removed —
BeatWaiters is not left empty and not every id in it is woken. -/
theorem tick_beat_boundary_cex :
    (cex8.position + 1) % 24 = 0 ∧ 4 ∈ cex8.beats ∧
      cex8.sequencers 4 = false ∧
      (Clock.tick cex8).events 4 = false ∧
      (Clock.tick cex8).beats = {4} := by decide

/-- C8 as amended: on every tick whose new pulse position is 0, Clock.tick
signals the wake event of every REGISTERED id in BeatWaiters and removes
exactly those (unregistered ids remain in the set, unsignalled); when the
beat also wraps to 0 it does the same for BarWaiters, which are otherwise
untouched. -/
theorem tick_boundary_wakes_registered (s : ClockState)
    (hpos : (s.position + 1) % 24 = 0) :
    (Clock.tick s).beats = Clock.survivors s.sequencers s.beats ∧
    (∀ i, i ∈ s.beats → s.sequencers i = true →
      (Clock.tick s).events i = true) ∧
    ((s.beat + 1) % 4 = 0 →
      (Clock.tick s).bars = Clock.survivors s.sequencers s.bars ∧
      ∀ i, i ∈ s.bars → s.sequencers i = true →
        (Clock.tick s).events i = true) ∧
    ((s.beat + 1) % 4 ≠ 0 → (Clock.tick s).bars = s.bars) := by
  refine ⟨tick_beats_eq s hpos, ?_, ?_, ?_⟩
  · exact fun i hmem hreg => tick_events_true_of_beat s i hpos hmem hreg
  · exact fun hb => ⟨tick_bars_eq_of_bar s hpos hb,
      fun i hmem hreg => tick_events_true_of_bar s i hpos hb hmem hreg⟩
  · exact fun hb => tick_bars_eq_of_not_bar s hpos hb

/-- Concrete engine state for the amended C8: beat waiters 3 (unregistered)
and 4 (registered) with the next pulse a beat boundary. -/
def w8 : ClockState :=
  { running := true, position := 23, beat := 0, bar := 0,
    countdowns := emptyRing 384,
    bars := ∅, beats := {3, 4},
    sequencers := fun i => decide (i = 4), events := fun _ => false }

/-- Witness for the amended C8 at `w8`. -/
theorem tick_boundary_wakes_registered_witness :
    (w8.position + 1) % 24 = 0 ∧
      ((Clock.tick w8).beats = Clock.survivors w8.sequencers w8.beats ∧
       (∀ i, i ∈ w8.beats → w8.sequencers i = true →
         (Clock.tick w8).events i = true) ∧
       ((w8.beat + 1) % 4 = 0 →
         (Clock.tick w8).bars = Clock.survivors w8.sequencers w8.bars ∧
         ∀ i, i ∈ w8.bars → w8.sequencers i = true →
           (Clock.tick w8).events i = true) ∧
       ((w8.beat + 1) % 4 ≠ 0 → (Clock.tick w8).bars = w8.bars)) :=
  ⟨by decide, tick_boundary_wakes_registered w8 (by decide)⟩

lemma getD_set_self (l : List (Finset Nat)) (k : Nat) (v : Finset Nat)
    (h : k < l.length) : (l.set k v).getD k ∅ = v := by
  induction l generalizing k with
  | nil => simp at h
  | cons a t ih =>
    cases k with
    | zero => simp
    | succ k => simpa using ih k (by simpa using h)

lemma getD_set_ne (l : List (Finset Nat)) (k j : Nat) (v : Finset Nat)
    (h : j ≠ k) : (l.set k v).getD j ∅ = l.getD j ∅ := by
  induction l generalizing k j with
  | nil => simp
  | cons a t ih =>
    cases k with
    | zero =>
      cases j with
      | zero => exact absurd rfl h
      | succ j => simp
    | succ k =>
      cases j with
      | zero => simp
      | succ j => simpa using ih k j (by omega)

lemma not_mem_getD_of_forall (l : List (Finset Nat)) (i : Nat)
    (h : ∀ c ∈ l, i ∉ c) (j : Nat) : i ∉ l.getD j ∅ := by
  induction l generalizing j with
  | nil => simp
  | cons a t ih =>
    cases j with
    | zero => simpa using h a (by simp)
    | succ j => simpa using ih (fun c hc => h c (by simp [hc])) j

/-- Invariant carried from one tick to the next while a lane waits on a
fixed pulse count: the 384-slot ring holds the lane's index in slot `m`
and nowhere else, the index is in no boundary waiter set, its event is
clear, and the lane is registered. -/
def armed (s : ClockState) (i m : Nat) : Prop :=
  s.countdowns.length = 384 ∧ m < 384 ∧
  (∀ j, i ∈ s.countdowns.getD j ∅ ↔ j = m) ∧
  i ∉ s.bars ∧ i ∉ s.beats ∧ s.events i = false ∧ s.sequencers i = true

lemma armed_step (s : ClockState) (i m : Nat) (h : armed s i (m + 1)) :
    armed (Clock.tick s) i m := by
  obtain ⟨hlen, hm, hmem, hbars, hbeats, hev, hseq⟩ := h
  obtain ⟨c, r0, rs, hc⟩ : ∃ c r0 rs, s.countdowns = c :: r0 :: rs := by
    cases h1 : s.countdowns with
    | nil => rw [h1] at hlen; simp at hlen
    | cons c t =>
      cases t with
      | nil => rw [h1] at hlen; simp at hlen
      | cons r0 rs => exact ⟨c, r0, rs, rfl⟩
  have hrs : rs.length = 382 := by rw [hc] at hlen; simp at hlen; omega
  have htc := tick_countdowns_cons2 s c r0 rs hc
  have h0 : i ∉ c := by
    intro hic
    have := (hmem 0).mp (by rw [hc, List.getD_cons_zero]; exact hic)
    omega
  refine ⟨?_, by omega, ?_, tick_bars_not_mem s i hbars,
    tick_beats_not_mem s i hbeats, ?_, ?_⟩
  · rw [htc]; simp [hrs]
  · intro j
    cases j with
    | zero =>
      rw [htc, List.cons_append, List.getD_cons_zero]
      have h1 : i ∈ r0 ↔ 1 = m + 1 := by
        have := hmem 1
        rw [hc, List.getD_cons_succ, List.getD_cons_zero] at this
        exact this
      constructor
      · intro hi
        rcases Finset.mem_union.mp hi with hi | hi
        · have := h1.mp hi; omega
        · exact absurd (Finset.mem_filter.mp hi).1 h0
      · intro hj
        exact Finset.mem_union_left _ (h1.mpr (by omega))
    | succ j =>
      rw [htc, List.cons_append, List.getD_cons_succ, getD_append_empty]
      have h2 : i ∈ rs.getD j ∅ ↔ j + 2 = m + 1 := by
        have := hmem (j + 2)
        rw [hc, List.getD_cons_succ, List.getD_cons_succ] at this
        exact this
      constructor
      · intro hi
        have := h2.mp hi; omega
      · intro hj
        exact h2.mpr (by omega)
  · have hfront : i ∉ s.countdowns.getD 0 ∅ := by
      rw [hc, List.getD_cons_zero]; exact h0
    rw [tick_events_eq_of_not_mem s i hbars hbeats hfront]
    exact hev
  · rw [tick_sequencers]; exact hseq

lemma armed_fire (s : ClockState) (i : Nat) (h : armed s i 0) :
    (Clock.tick s).events i = true := by
  obtain ⟨hlen, hm, hmem, hbars, hbeats, hev, hseq⟩ := h
  exact tick_events_true_of_front s i ((hmem 0).mpr rfl) hseq

/-- Precondition of a fresh fixed-pulse wait: the live 384-slot ring, the
lane registered with its event clear (as `register` leaves it), and its
index in no wait structure (one outstanding wait per lane). -/
def freshWaiter (s : ClockState) (i : Nat) : Prop :=
  s.countdowns.length = 384 ∧ s.sequencers i = true ∧ s.events i = false ∧
  i ∉ s.bars ∧ i ∉ s.beats ∧ ∀ c ∈ s.countdowns, i ∉ c

lemma wait_arms (s : ClockState) (seq n : Nat) (hw : freshWaiter s (seq - 1))
    (hn : 0 < n) (hN : n ≤ 384) :
    ∃ t, Clock.wait s seq n = Except.ok (t, true) ∧
      armed t (seq - 1) (n - 1) := by
  obtain ⟨hlen, hsq, hev, hbars, hbeats, hcds⟩ := hw
  have h0 : ¬ n = 0 := by omega
  have hlt : n - 1 < s.countdowns.length := by rw [hlen]; omega
  refine ⟨{ s with countdowns := s.countdowns.set (n - 1) (insert (seq - 1) (s.countdowns.get ⟨n - 1, hlt⟩)) }, ?_, ?_⟩
  · simp only [Clock.wait, if_neg h0, dif_pos hlt]
  · refine ⟨by simp [hlen], by omega, ?_, hbars, hbeats, hev, hsq⟩
    intro j
    by_cases hj : j = n - 1
    · subst hj
      rw [getD_set_self _ _ _ hlt]
      simp
    · rw [getD_set_ne _ _ _ _ hj]
      have hnm := not_mem_getD_of_forall s.countdowns (seq - 1) hcds j
      exact iff_of_false hnm hj

/-- C1: a registered lane with no outstanding wait that calls
`waitPulses(id, n)` for `0 < n ≤ 384` (the horizon) has its wake event
signalled by exactly the n-th following `onPulse` call: after any fewer
ticks the event is still clear, and the n-th tick sets it. -/
theorem waitPulses_wakes_on_nth_pulse (s : ClockState) (seq n : Nat)
    (hw : freshWaiter s (seq - 1)) (hn : 0 < n) (hN : n ≤ 384) :
    ∃ t, Clock.wait s seq n = Except.ok (t, true) ∧
      (∀ k, k < n → (Clock.tick^[k] t).events (seq - 1) = false) ∧
      (Clock.tick^[n] t).events (seq - 1) = true := by
  obtain ⟨t, hwt, ha⟩ := wait_arms s seq n hw hn hN
  have H : ∀ k, k ≤ n - 1 → armed (Clock.tick^[k] t) (seq - 1) (n - 1 - k) := by
    intro k
    induction k with
    | zero => intro h; simpa using ha
    | succ k ih =>
      intro hk
      have hk' : k ≤ n - 1 := by omega
      have harm := ih hk'
      have heq : n - 1 - k = (n - 1 - (k + 1)) + 1 := by omega
      rw [heq] at harm
      rw [Function.iterate_succ_apply']
      exact armed_step _ _ _ harm
  refine ⟨t, hwt, ?_, ?_⟩
  · intro k hk
    exact (H k (by omega)).2.2.2.2.2.1
  · have hn1 : n = (n - 1) + 1 := by omega
    rw [hn1, Function.iterate_succ_apply']
    have harm := H (n - 1) (le_refl _)
    have h0 : n - 1 - (n - 1) = 0 := by omega
    rw [h0] at harm
    exact armed_fire _ _ harm

/-- Concrete engine state: the freshly initialised engine with lane 5
registered. -/
def sReg : ClockState := Clock.register initClock 5

lemma sReg_fresh : freshWaiter sReg (5 - 1) := by
  refine ⟨?_, by decide, by decide, by decide, by decide, ?_⟩
  · simp [sReg, initClock, Clock.register, Clock.reset, emptyRing_length]
  · intro c hc
    have hc' : c ∈ emptyRing 384 := by
      simpa [sReg, initClock, Clock.register, Clock.reset] using hc
    rw [eq_empty_of_mem_emptyRing hc']
    simp

/-- Witness for C1 at the n = 24 boundary case: lane 5, freshly
registered, armed for 24 pulses, wakes on the 24th tick exactly. -/
theorem waitPulses_wakes_on_nth_pulse_witness :
    freshWaiter sReg (5 - 1) ∧ 0 < 24 ∧ 24 ≤ 384 ∧
      (∃ t, Clock.wait sReg 5 24 = Except.ok (t, true) ∧
        (∀ k, k < 24 → (Clock.tick^[k] t).events (5 - 1) = false) ∧
        (Clock.tick^[24] t).events (5 - 1) = true) :=
  ⟨sReg_fresh, by decide, by decide,
    waitPulses_wakes_on_nth_pulse sReg 5 24 sReg_fresh (by decide) (by decide)⟩

/-- A lane index purged from every wait structure: not in BarWaiters, not
in BeatWaiters, in no DelayRing slot. -/
def clean (s : ClockState) (i : Nat) : Prop :=
  i ∉ s.bars ∧ i ∉ s.beats ∧ ∀ c ∈ s.countdowns, i ∉ c

lemma tick_countdowns_nil (s : ClockState) (hc : s.countdowns = []) :
    (Clock.tick s).countdowns = [] := by
  simp [Clock.tick, hc]

lemma tick_countdowns_single (s : ClockState) (c : Finset Nat)
    (hc : s.countdowns = [c]) :
    (Clock.tick s).countdowns = [Clock.survivors s.sequencers c, ∅] := by
  simp [Clock.tick, hc]

lemma tick_preserves_clean (s : ClockState) (i : Nat) (h : clean s i) :
    clean (Clock.tick s) i ∧ (Clock.tick s).events i = s.events i := by
  obtain ⟨hbar, hbeat, hcds⟩ := h
  have hfront : i ∉ s.countdowns.getD 0 ∅ :=
    not_mem_getD_of_forall _ _ hcds 0
  refine ⟨⟨tick_bars_not_mem s i hbar, tick_beats_not_mem s i hbeat, ?_⟩,
    tick_events_eq_of_not_mem s i hbar hbeat hfront⟩
  intro d hd
  cases hc : s.countdowns with
  | nil =>
    rw [tick_countdowns_nil s hc] at hd
    simp at hd
  | cons c0 rest =>
    have h0 : i ∉ c0 := hcds c0 (by rw [hc]; simp)
    cases rest with
    | nil =>
      rw [tick_countdowns_single s c0 hc] at hd
      rcases List.mem_cons.mp hd with rfl | hd
      · simp [Clock.survivors, h0]
      · rcases List.mem_cons.mp hd with rfl | hd
        · simp
        · simp at hd
    | cons r0 rs =>
      rw [tick_countdowns_cons2 s c0 r0 rs hc] at hd
      have hr0 : i ∉ r0 := hcds r0 (by rw [hc]; simp)
      rw [List.cons_append, List.mem_cons] at hd
      rcases hd with rfl | hd
      · simp [Finset.mem_union, Clock.survivors, hr0, h0]
      · rcases List.mem_append.mp hd with hd | hd
        · exact hcds d (by rw [hc]; simp [hd])
        · rcases List.mem_cons.mp hd with rfl | hd
          · simp
          · simp at hd

lemma clean_iterate (s : ClockState) (i : Nat) (h : clean s i) (k : Nat) :
    clean (Clock.tick^[k] s) i ∧ (Clock.tick^[k] s).events i = s.events i := by
  induction k with
  | zero => exact ⟨h, rfl⟩
  | succ k ih =>
    rw [Function.iterate_succ_apply']
    obtain ⟨hcl, he⟩ := ih
    obtain ⟨hcl', he'⟩ := tick_preserves_clean _ i hcl
    exact ⟨hcl', he'.trans he⟩

lemma wait_for_fst (s : ClockState) (index : Nat) :
    (Clock.wait_for s index).1 =
      { s with events := fun i => if i = index then false else s.events i } := by
  unfold Clock.wait_for
  split_ifs <;> rfl

/-- C7: `unregister(id)` signals the lane's wake event at once — so its
in-flight wait completes through `wait_for` with a Cancelled outcome —
and purges its index from BarWaiters, BeatWaiters and every DelayRing
slot; after the woken wait clears the event, no run of subsequent ticks
ever signals that lane's event again. -/
theorem unregister_cancels_and_purges (s : ClockState) (seq : Nat)
    (hseq : 1 ≤ seq) :
    (Clock.unregister s seq).events (seq - 1) = true ∧
    (Clock.wait_for (Clock.unregister s seq) (seq - 1)).2 = Outcome.cancelled ∧
    clean (Clock.unregister s seq) (seq - 1) ∧
    ∀ k, (Clock.tick^[k]
        ((Clock.wait_for (Clock.unregister s seq) (seq - 1)).1)).events
      (seq - 1) = false := by
  have hcln : clean (Clock.unregister s seq) (seq - 1) := by
    refine ⟨Finset.not_mem_erase _ _, Finset.not_mem_erase _ _, ?_⟩
    intro c hc
    obtain ⟨c', hc', rfl⟩ := List.mem_map.mp hc
    exact Finset.not_mem_erase _ _
  have hs : (Clock.unregister s seq).sequencers (seq - 1) = false := by
    simp [Clock.unregister]
  refine ⟨by simp [Clock.unregister], ?_, hcln, ?_⟩
  · unfold Clock.wait_for
    split_ifs <;> simp_all
  · intro k
    have hcln2 : clean ((Clock.wait_for (Clock.unregister s seq)
        (seq - 1)).1) (seq - 1) := by
      rw [wait_for_fst]
      exact hcln
    have hev1 : ((Clock.wait_for (Clock.unregister s seq) (seq - 1)).1).events
        (seq - 1) = false := by
      rw [wait_for_fst]
      simp
    obtain ⟨_, he⟩ := clean_iterate _ _ hcln2 k
    rw [he, hev1]

/-- Witness for C7: unregistering the registered lane 5 of `sReg`. -/
theorem unregister_cancels_and_purges_witness :
    1 ≤ 5 ∧
      ((Clock.unregister sReg 5).events (5 - 1) = true ∧
       (Clock.wait_for (Clock.unregister sReg 5) (5 - 1)).2 = Outcome.cancelled ∧
       clean (Clock.unregister sReg 5) (5 - 1) ∧
       ∀ k, (Clock.tick^[k]
           ((Clock.wait_for (Clock.unregister sReg 5) (5 - 1)).1)).events
         (5 - 1) = false) :=
  ⟨by decide, unregister_cancels_and_purges sReg 5 (by decide)⟩
